import Mathlib

/-!
Verification of the `IfUnmodifiedSince` conditional-request header type
(`src/conditional/if_unmodified_since.rs`).

The repository contains only that one file; its collaborators — the
`Headers` multi-map, `HeaderValue`, the `crate::Error` type and the
HTTP-date codec `fmt_http_date` / `parse_http_date` from `crate::utils` —
are external. Those are modelled from the specification (marked
`Modelled from the spec:` below); `IfUnmodifiedSince` itself is embedded
from the source.

Timestamps are modelled as a whole number of seconds plus nanoseconds
since the Unix epoch, the range the HTTP-date formatter supports.
-/

set_option maxRecDepth 4000

/-- Modelled from the spec: a timestamp (Rust `std::time::SystemTime`),
"a timestamp with no fractional-second requirement (HTTP dates carry only
whole seconds)". Represented as seconds plus nanoseconds since the Unix
epoch; a well-formed value has `nanos < 10^9`. -/
structure SystemTime where
  secs : Nat
  nanos : Nat
deriving DecidableEq, Repr

/-- Total nanoseconds since the epoch, used to state sub-second distance. -/
def SystemTime.toNanos (t : SystemTime) : Nat :=
  t.secs * 1000000000 + t.nanos

/-- Lexicographic order on (secs, nanos), as derived for Rust durations. -/
def SystemTime.lt (a b : SystemTime) : Prop :=
  a.secs < b.secs ∨ (a.secs = b.secs ∧ a.nanos < b.nanos)

instance : LT SystemTime := ⟨SystemTime.lt⟩

instance (a b : SystemTime) : Decidable (a < b) := by
  unfold LT.lt instLTSystemTime SystemTime.lt
  infer_instance

/-- Modelled from the spec: the dynamic `crate::Error` type, reduced to the
one observable the spec names, "a `status_code` accessor". -/
structure Error where
  status : Nat
deriving DecidableEq, Repr

/-- Modelled from the spec: an opaque header value wrapping its text. -/
structure HeaderValue where
  inner : String
deriving DecidableEq, Repr

/-- Modelled from the spec: unchecked construction of a header value, "wraps
it as an opaque header value without re-validating". No validation occurs. -/
def HeaderValue.from_bytes_unchecked (bytes : String) : HeaderValue :=
  ⟨bytes⟩

/-- The stored text of a header value. -/
def HeaderValue.as_str (v : HeaderValue) : String :=
  v.inner

/-- Modelled from the spec: `ToHeaderValues` for `HeaderValue` — "a
HeaderValue will always convert into itself", yielding one value. -/
def HeaderValue.to_header_values (v : HeaderValue) : Except Error (List HeaderValue) :=
  .ok [v]

/-- The well-known header name this type binds to. -/
def IF_UNMODIFIED_SINCE : String := "if-unmodified-since"

/-- Modelled from the spec: the `Headers` collection, "an ordered multi-map
from header names to one-or-more textual values, preserving insertion
order". -/
structure Headers where
  entries : List (String × List HeaderValue)
deriving DecidableEq, Repr

/-- A fresh, empty header collection (`Headers::new`). -/
def Headers.empty : Headers :=
  ⟨[]⟩

/-- Modelled from the spec: `get(name) -> Option<ordered sequence of text
values>`. -/
def Headers.get (h : Headers) (name : String) : Option (List HeaderValue) :=
  (h.entries.find? fun p => decide (p.1 = name)).map fun p => p.2

/-- Modelled from the spec: `insert(name, value)` "replaces prior values for
that name"; the inserted `ToHeaderValues` argument is the collected list. -/
def Headers.insert (h : Headers) (name : String) (values : List HeaderValue) : Headers :=
  ⟨(name, values) :: h.entries.filter fun p => !decide (p.1 = name)⟩

/-- Modelled from the spec: the collection invariant, names map to
"one-or-more" values — a stored sequence is never empty. -/
def Headers.WF (h : Headers) : Prop :=
  ∀ p ∈ h.entries, p.2 ≠ []

/-! ### The HTTP-date codec (`crate::utils::fmt_http_date` / `parse_http_date`)

Modelled from the spec: "bidirectional conversion between a timestamp and
the fixed HTTP date text format, truncated to one-second resolution";
format "always succeeds" producing the canonical RFC-specified shape
(`"Sun, 06 Nov 1994 08:49:37 GMT"`), parse "fails on any text not matching
the expected date grammar". The Gregorian conversion uses the standard
day-count algorithm (eras of 146097 days starting March 1). -/

/-- Year numerator of the day-of-era to year-of-era computation. -/
def yoeNum (doe : Nat) : Nat :=
  doe - doe / 1460 + doe / 36524 - doe / 146096

/-- Year of era (0..399) of a day of era. -/
def yoeOf (doe : Nat) : Nat :=
  yoeNum doe / 365

/-- First day of era of a (March-based) year of era. -/
def yearStart (y : Nat) : Nat :=
  365 * y + y / 4 - y / 100

/-- One past the last day of era of a year of era. -/
def yearEnd (y : Nat) : Nat :=
  if y = 399 then 146097 else yearStart (y + 1)

/-- Day of its year of a day of era. -/
def doyOf (doe : Nat) : Nat :=
  doe - yearStart (yoeOf doe)

/-- March-based month index (0 = March .. 11 = February) of a day of year. -/
def mpOf (doy : Nat) : Nat :=
  (5 * doy + 2) / 153

/-- Civil (year-within-era-with-January-shift, month 1-12, day 1-31) date of
a day of era. -/
def civilOfDoe (doe : Nat) : Nat × Nat × Nat :=
  let yoe := yoeOf doe
  let doy := doyOf doe
  let mp := mpOf doy
  let d := doy - (153 * mp + 2) / 5 + 1
  let m := if mp < 10 then mp + 3 else mp - 9
  (if m ≤ 2 then yoe + 1 else yoe, m, d)

/-- Civil date (year, month 1-12, day 1-31) of a count of days since
1970-01-01. -/
def civil_from_days (z : Nat) : Nat × Nat × Nat :=
  let n := z + 719468
  let era := n / 146097
  let p := civilOfDoe (n % 146097)
  (era * 400 + p.1, p.2.1, p.2.2)

/-- Count of days since 1970-01-01 of a civil date. -/
def days_from_civil (y m d : Nat) : Nat :=
  let y2 := if m ≤ 2 then y - 1 else y
  let era := y2 / 400
  let yoe := y2 % 400
  let mp := if 2 < m then m - 3 else m + 9
  let doy := (153 * mp + 2) / 5 + d - 1
  let doe := 365 * yoe + yoe / 4 - yoe / 100 + doy
  era * 146097 + doe - 719468

/-- Decimal digit character of a value below ten. -/
def digitChar (d : Nat) : Char :=
  match d with
  | 0 => '0' | 1 => '1' | 2 => '2' | 3 => '3' | 4 => '4'
  | 5 => '5' | 6 => '6' | 7 => '7' | 8 => '8' | _ => '9'

/-- Numeric value of a decimal digit character. -/
def digitVal (c : Char) : Nat :=
  c.toNat - 48

/-- ASCII decimal digit test. -/
def isDigitCh (c : Char) : Bool :=
  Nat.ble 48 c.toNat && Nat.ble c.toNat 57

/-- Two-digit zero-padded decimal rendering. -/
def pad2 (n : Nat) : List Char :=
  [digitChar (n / 10), digitChar (n % 10)]

/-- Fuelled most-significant-first decimal rendering; adequate when the
fuel exceeds the value. -/
def digitsAux : Nat → Nat → List Char
  | 0, _ => []
  | fuel + 1, n =>
    if n < 10 then [digitChar n]
    else digitsAux fuel (n / 10) ++ [digitChar (n % 10)]

/-- Decimal rendering of a natural number, most significant digit first. -/
def decimalDigits (n : Nat) : List Char :=
  digitsAux (n + 1) n

/-- Weekday name, indexed with 0 = Sunday. -/
def weekdayName (w : Nat) : List Char :=
  match w with
  | 0 => ['S', 'u', 'n'] | 1 => ['M', 'o', 'n'] | 2 => ['T', 'u', 'e']
  | 3 => ['W', 'e', 'd'] | 4 => ['T', 'h', 'u'] | 5 => ['F', 'r', 'i']
  | _ => ['S', 'a', 't']

/-- Month name, indexed 1-12. -/
def monthName (m : Nat) : List Char :=
  match m with
  | 1 => ['J', 'a', 'n'] | 2 => ['F', 'e', 'b'] | 3 => ['M', 'a', 'r']
  | 4 => ['A', 'p', 'r'] | 5 => ['M', 'a', 'y'] | 6 => ['J', 'u', 'n']
  | 7 => ['J', 'u', 'l'] | 8 => ['A', 'u', 'g'] | 9 => ['S', 'e', 'p']
  | 10 => ['O', 'c', 't'] | 11 => ['N', 'o', 'v'] | _ => ['D', 'e', 'c']

/-- The canonical HTTP-date text of a count of seconds since the epoch. -/
def fmtList (secs : Nat) : List Char :=
  let z := secs / 86400
  let c := civil_from_days z
  weekdayName ((z + 4) % 7) ++ ',' :: ' ' ::
    (pad2 c.2.2 ++ ' ' ::
      (monthName c.2.1 ++ ' ' ::
        (decimalDigits c.1 ++ ' ' ::
          (pad2 (secs % 86400 / 3600) ++ ':' ::
            (pad2 (secs % 86400 % 3600 / 60) ++ ':' ::
              (pad2 (secs % 60) ++ [' ', 'G', 'M', 'T']))))))

/-- Modelled from the spec: `format(timestamp) -> ASCII text`, "canonical
RFC-specified date format, second resolution, always succeeds". -/
def fmt_http_date (t : SystemTime) : String :=
  String.mk (fmtList t.secs)

/-- Membership of three characters in the weekday-name table. -/
def weekdayOk (cs : List Char) : Bool :=
  decide (cs = weekdayName 0) || decide (cs = weekdayName 1) ||
  decide (cs = weekdayName 2) || decide (cs = weekdayName 3) ||
  decide (cs = weekdayName 4) || decide (cs = weekdayName 5) ||
  decide (cs = weekdayName 6)

/-- Month number of three characters of the month-name table. -/
def monthIndex (cs : List Char) : Option Nat :=
  if cs = monthName 1 then some 1 else if cs = monthName 2 then some 2
  else if cs = monthName 3 then some 3 else if cs = monthName 4 then some 4
  else if cs = monthName 5 then some 5 else if cs = monthName 6 then some 6
  else if cs = monthName 7 then some 7 else if cs = monthName 8 then some 8
  else if cs = monthName 9 then some 9 else if cs = monthName 10 then some 10
  else if cs = monthName 11 then some 11 else if cs = monthName 12 then some 12
  else none

/-- Consume a weekday name, comma and space. -/
def parseWeekday : List Char → Option (List Char)
  | c1 :: c2 :: c3 :: c4 :: c5 :: rest =>
    if decide (c4 = ',') && decide (c5 = ' ') && weekdayOk [c1, c2, c3] then
      some rest
    else none
  | _ => none

/-- Consume exactly two decimal digits. -/
def parse2 : List Char → Option (Nat × List Char)
  | c1 :: c2 :: rest =>
    if isDigitCh c1 && isDigitCh c2 then
      some (10 * digitVal c1 + digitVal c2, rest)
    else none
  | _ => none

/-- Consume a month name. -/
def parseMonth : List Char → Option (Nat × List Char)
  | c1 :: c2 :: c3 :: rest => (monthIndex [c1, c2, c3]).map fun m => (m, rest)
  | _ => none

/-- Consume one expected character. -/
def expectCh (c : Char) : List Char → Option (List Char)
  | [] => none
  | x :: rest => if x = c then some rest else none

/-- Value of a most-significant-first decimal digit string. -/
def digitsToNat (cs : List Char) : Nat :=
  cs.foldl (fun a c => a * 10 + digitVal c) 0

/-- Consume a year of at least four decimal digits. -/
def parseYear (l : List Char) : Option (Nat × List Char) :=
  if (l.takeWhile isDigitCh).length < 4 then none
  else some (digitsToNat (l.takeWhile isDigitCh), l.dropWhile isDigitCh)

/-- Consume a colon-separated time of day, yielding its second count. -/
def parseTime (l : List Char) : Option (Nat × List Char) :=
  match parse2 l with
  | none => none
  | some hl =>
    match expectCh ':' hl.2 with
    | none => none
    | some l2 =>
      match parse2 l2 with
      | none => none
      | some il =>
        match expectCh ':' il.2 with
        | none => none
        | some l3 =>
          match parse2 l3 with
          | none => none
          | some sl =>
            if Nat.ble hl.1 23 && Nat.ble il.1 59 && Nat.ble sl.1 59 then
              some (hl.1 * 3600 + il.1 * 60 + sl.1, sl.2)
            else none

/-- Consume day, month name and year, yielding the day count since the
epoch. -/
def parseDate (l : List Char) : Option (Nat × List Char) :=
  match parse2 l with
  | none => none
  | some dl =>
    match expectCh ' ' dl.2 with
    | none => none
    | some l2 =>
      match parseMonth l2 with
      | none => none
      | some ml =>
        match expectCh ' ' ml.2 with
        | none => none
        | some l3 =>
          match parseYear l3 with
          | none => none
          | some yl =>
            if Nat.ble 1 dl.1 && Nat.ble dl.1 31 then
              some (days_from_civil yl.1 ml.1 dl.1, yl.2)
            else none

/-- Parse the fixed HTTP-date grammar, returning seconds since the epoch. -/
def parseList (l : List Char) : Option Nat :=
  match parseWeekday l with
  | none => none
  | some l1 =>
    match parseDate l1 with
    | none => none
    | some zl =>
      match expectCh ' ' zl.2 with
      | none => none
      | some l2 =>
        match parseTime l2 with
        | none => none
        | some tl =>
          if tl.2 = [' ', 'G', 'M', 'T'] then
            some (zl.1 * 86400 + tl.1)
          else none

/-- Modelled from the spec: `parse(text) -> Result<timestamp, ParseError>`,
failing on any text not matching the date grammar; "parse failure surfaces
as a malformed request error (semantically a 400-class client error)". -/
def parse_http_date (s : String) : Except Error SystemTime :=
  match parseList s.data with
  | some n => .ok ⟨n, 0⟩
  | none => .error ⟨400⟩

/-- Range of HTTP status codes of client-error class. -/
def isClientErrorStatus (s : Nat) : Prop :=
  400 ≤ s ∧ s < 500

/-- ASCII-only test on a string. -/
def asciiOnly (s : String) : Bool :=
  s.data.all fun c => Nat.blt c.toNat 128

/-! ### `IfUnmodifiedSince`, embedded from the source file -/

/-- Apply the HTTP method if the entity has not been modified after the
given date (RFC 7232 section 3.4). One field, the stored instant. -/
structure IfUnmodifiedSince where
  instant : SystemTime
deriving DecidableEq, Repr

/-- Derived structural order on the single `instant` field. -/
instance : LT IfUnmodifiedSince :=
  ⟨fun a b => a.instant < b.instant⟩

namespace IfUnmodifiedSince

/-- Create a new instance of `IfUnmodifiedSince`. -/
def new (instant : SystemTime) : IfUnmodifiedSince :=
  ⟨instant⟩

/-- Returns the last modification time listed. -/
def modified (v : IfUnmodifiedSince) : SystemTime :=
  v.instant

/-- Create an instance of `IfUnmodifiedSince` from a `Headers` instance.
A `none` result models the panic of the `.unwrap()` on the last entry;
`some` carries the Rust `crate::Result<Option<Self>>`. -/
def from_headers (headers : Headers) : Option (Except Error (Option IfUnmodifiedSince)) :=
  match headers.get IF_UNMODIFIED_SINCE with
  | none => some (.ok none)
  | some hs =>
    match hs.getLast? with
    | none => none
    | some header =>
      some ((parse_http_date header.as_str).map fun instant => some ⟨instant⟩)

/-- Get the `HeaderValue`: format the instant and wrap it unchecked. -/
def value (v : IfUnmodifiedSince) : HeaderValue :=
  HeaderValue.from_bytes_unchecked (fmt_http_date v.instant)

/-- Insert a `HeaderName` and `HeaderValue` pair into a `Headers` instance. -/
def apply (v : IfUnmodifiedSince) (headers : Headers) : Headers :=
  headers.insert IF_UNMODIFIED_SINCE [v.value]

/-- Get the `HeaderName`. -/
def name (_ : IfUnmodifiedSince) : String :=
  IF_UNMODIFIED_SINCE

/-- The `ToHeaderValues` conversion: `Ok(self.value().to_header_values().unwrap())`.
The inner conversion is infallible, so the unwrap default branch is dead. -/
def to_header_values (v : IfUnmodifiedSince) : Except Error (List HeaderValue) :=
  .ok (match v.value.to_header_values with
    | .ok vs => vs
    | .error _ => [])

end IfUnmodifiedSince

/-- Per-year boundary check of the year-of-era formula. -/
def yearChk (y : Nat) : Bool :=
  Nat.blt (yearStart y) (yearEnd y) &&
  Nat.beq (yoeOf (yearStart y)) y &&
  Nat.beq (yoeOf (yearEnd y - 1)) y &&
  Nat.ble (yearEnd y - yearStart y) 366

/-- Conjunction of `yearChk` over an interval of years. -/
def yearChkFrom (s : Nat) : Nat → Bool
  | 0 => true
  | n + 1 => yearChk (s + n) && yearChkFrom s n

/-! ### Correctness of the Gregorian day-count conversion -/

theorem yoeNum_step (x : Nat) : yoeNum x ≤ yoeNum (x + 1) := by
  unfold yoeNum
  omega

theorem yoeNum_mono {a b : Nat} (h : a ≤ b) : yoeNum a ≤ yoeNum b := by
  induction b with
  | zero => simp_all
  | succ b ih =>
    rcases Nat.lt_succ_iff_lt_or_eq.mp (Nat.lt_succ_of_le h) with h2 | h2
    · exact Nat.le_trans (ih (by omega)) (yoeNum_step b)
    · subst h2; exact Nat.le_refl _

theorem yoeOf_mono {a b : Nat} (h : a ≤ b) : yoeOf a ≤ yoeOf b :=
  Nat.div_le_div_right (yoeNum_mono h)

theorem yearChkFrom_spec (s n : Nat) (h : yearChkFrom s n = true) :
    ∀ i, i < n → yearChk (s + i) = true := by
  induction n with
  | zero => intro i hi; omega
  | succ n ih =>
    intro i hi
    simp only [yearChkFrom, Bool.and_eq_true] at h
    rcases Nat.lt_succ_iff_lt_or_eq.mp hi with h2 | h2
    · exact ih h.2 i h2
    · subst h2; exact h.1

theorem yearChk_all (y : Nat) (h : y < 400) : yearChk y = true := by
  have hall : yearChkFrom 0 400 = true := by decide
  have := yearChkFrom_spec 0 400 hall y h
  simpa using this

theorem yearChk_props (y : Nat) (h : y < 400) :
    yearStart y < yearEnd y ∧ yoeOf (yearStart y) = y ∧
    yoeOf (yearEnd y - 1) = y ∧ yearEnd y - yearStart y ≤ 366 := by
  have := yearChk_all y h
  simp only [yearChk, Bool.and_eq_true, Nat.blt_eq, Nat.ble_eq] at this
  exact ⟨this.1.1.1, Nat.eq_of_beq_eq_true this.1.1.2,
    Nat.eq_of_beq_eq_true this.1.2, this.2⟩

theorem yoeOf_lt (doe : Nat) (h : doe < 146097) : yoeOf doe < 400 := by
  have h1 : yoeOf doe ≤ yoeOf 146096 := yoeOf_mono (by omega)
  have h2 : yoeOf 146096 = 399 := by decide
  omega

theorem yearStart_yoeOf_le (doe : Nat) (h : doe < 146097) :
    yearStart (yoeOf doe) ≤ doe := by
  by_contra hc
  push_neg at hc
  have hy400 := yoeOf_lt doe h
  have hy0 : yoeOf doe ≠ 0 := by
    intro h0
    rw [h0] at hc
    simp [yearStart] at hc
  obtain ⟨hlt, hs, he, hlen⟩ := yearChk_props (yoeOf doe - 1) (by omega)
  have hend : yearEnd (yoeOf doe - 1) = yearStart (yoeOf doe) := by
    unfold yearEnd
    rw [if_neg (by omega)]
    congr 1
    omega
  have hle : doe ≤ yearEnd (yoeOf doe - 1) - 1 := by omega
  have hmono := yoeOf_mono hle
  rw [he] at hmono
  omega

theorem lt_yearEnd_yoeOf (doe : Nat) (h : doe < 146097) :
    doe < yearEnd (yoeOf doe) := by
  by_contra hc
  push_neg at hc
  have hy400 := yoeOf_lt doe h
  rcases Nat.eq_or_lt_of_le (show yoeOf doe ≤ 399 by omega) with h9 | h9
  · unfold yearEnd at hc
    rw [if_pos h9] at hc
    omega
  · obtain ⟨hlt, hs, he, hlen⟩ := yearChk_props (yoeOf doe + 1) (by omega)
    have hend : yearEnd (yoeOf doe) = yearStart (yoeOf doe + 1) := by
      unfold yearEnd
      rw [if_neg (by omega)]
    have hmono := yoeOf_mono (hend ▸ hc)
    rw [hs] at hmono
    omega

theorem month_fact (doy : Nat) (h : doy < 366) :
    mpOf doy ≤ 11 ∧ (153 * mpOf doy + 2) / 5 ≤ doy ∧
    doy + 1 ≤ (153 * mpOf doy + 2) / 5 + 31 := by
  unfold mpOf
  omega

theorem era_inv (doe : Nat) (h : doe < 146097) (era : Nat) :
    days_from_civil (era * 400 + (civilOfDoe doe).1) (civilOfDoe doe).2.1
      (civilOfDoe doe).2.2 = era * 146097 + doe - 719468 := by
  have hy4 := yoeOf_lt doe h
  have hys := yearStart_yoeOf_le doe h
  have hye := lt_yearEnd_yoeOf doe h
  obtain ⟨hlt, hs, he, hlen⟩ := yearChk_props (yoeOf doe) hy4
  have hdoy : doyOf doe < 366 := by
    unfold doyOf
    omega
  obtain ⟨hmp, hms, hmd⟩ := month_fact (doyOf doe) hdoy
  have hdoy1 : yearStart (yoeOf doe) + doyOf doe = doe := by
    unfold doyOf
    omega
  have e1 : yearStart (yoeOf doe) =
      365 * yoeOf doe + yoeOf doe / 4 - yoeOf doe / 100 := rfl
  have hA2 : (era * 400 + yoeOf doe) / 400 = era := by omega
  have hA3 : (era * 400 + yoeOf doe) % 400 = yoeOf doe := by omega
  simp only [civilOfDoe, days_from_civil]
  rcases Nat.lt_or_ge (mpOf (doyOf doe)) 10 with hc | hc
  · simp only [if_pos hc, if_neg (show ¬ mpOf (doyOf doe) + 3 ≤ 2 by omega),
      if_pos (show 2 < mpOf (doyOf doe) + 3 by omega), Nat.add_sub_cancel,
      hA2, hA3]
    omega
  · have hx : mpOf (doyOf doe) - 9 ≤ 2 := by omega
    have hy2 : era * 400 + (yoeOf doe + 1) - 1 = era * 400 + yoeOf doe := by
      omega
    have hmp9 : mpOf (doyOf doe) - 9 + 9 = mpOf (doyOf doe) := by omega
    simp only [if_neg (show ¬ mpOf (doyOf doe) < 10 by omega), if_pos hx,
      if_neg (show ¬ 2 < mpOf (doyOf doe) - 9 by omega), hy2, hmp9,
      hA2, hA3]
    omega

theorem days_civil_inv (z : Nat) :
    days_from_civil (civil_from_days z).1 (civil_from_days z).2.1
      (civil_from_days z).2.2 = z := by
  have hmod : (z + 719468) % 146097 < 146097 := Nat.mod_lt _ (by omega)
  have hdm := Nat.div_add_mod (z + 719468) 146097
  simp only [civil_from_days]
  rw [era_inv _ hmod]
  omega

theorem civil_m_bounds (z : Nat) :
    1 ≤ (civil_from_days z).2.1 ∧ (civil_from_days z).2.1 ≤ 12 := by
  have hmod : (z + 719468) % 146097 < 146097 := Nat.mod_lt _ (by omega)
  have hdoy : doyOf ((z + 719468) % 146097) < 366 := by
    have hys := yearStart_yoeOf_le _ hmod
    have hye := lt_yearEnd_yoeOf _ hmod
    obtain ⟨hlt, hs, he, hlen⟩ := yearChk_props (yoeOf ((z + 719468) % 146097)) (yoeOf_lt _ hmod)
    unfold doyOf
    omega
  obtain ⟨hmp, hms, hmd⟩ := month_fact _ hdoy
  simp only [civil_from_days, civilOfDoe]
  split_ifs <;> omega

theorem civil_d_bounds (z : Nat) :
    1 ≤ (civil_from_days z).2.2 ∧ (civil_from_days z).2.2 ≤ 31 := by
  have hmod : (z + 719468) % 146097 < 146097 := Nat.mod_lt _ (by omega)
  have hdoy : doyOf ((z + 719468) % 146097) < 366 := by
    have hys := yearStart_yoeOf_le _ hmod
    have hye := lt_yearEnd_yoeOf _ hmod
    obtain ⟨hlt, hs, he, hlen⟩ := yearChk_props (yoeOf ((z + 719468) % 146097)) (yoeOf_lt _ hmod)
    unfold doyOf
    omega
  obtain ⟨hmp, hms, hmd⟩ := month_fact _ hdoy
  simp only [civil_from_days, civilOfDoe]
  omega

/-! ### Digit and text lemmas -/

theorem digitVal_digitChar (d : Nat) (h : d < 10) : digitVal (digitChar d) = d := by
  interval_cases d <;> decide

theorem isDigitCh_digitChar (d : Nat) (h : d < 10) : isDigitCh (digitChar d) = true := by
  interval_cases d <;> decide

theorem digitChar_ascii (d : Nat) : (digitChar d).toNat < 128 := by
  unfold digitChar
  split <;> decide

theorem isDigitCh_ascii (c : Char) (h : isDigitCh c = true) : c.toNat < 128 := by
  simp only [isDigitCh, Bool.and_eq_true, Nat.ble_eq] at h
  omega

theorem digitsAux_digits (fuel : Nat) : ∀ n, n < fuel →
    ∀ c ∈ digitsAux fuel n, isDigitCh c = true := by
  induction fuel with
  | zero => intro n h; omega
  | succ fuel ih =>
    intro n h c hc
    rw [digitsAux] at hc
    by_cases h10 : n < 10
    · rw [if_pos h10] at hc
      simp only [List.mem_singleton] at hc
      subst hc
      exact isDigitCh_digitChar n h10
    · rw [if_neg h10] at hc
      rw [List.mem_append, List.mem_singleton] at hc
      rcases hc with hc | hc
      · exact ih (n / 10) (by omega) c hc
      · subst hc
        exact isDigitCh_digitChar _ (by omega)

theorem digitsAux_val (fuel : Nat) : ∀ n a, n < fuel →
    List.foldl (fun a c => a * 10 + digitVal c) a (digitsAux fuel n)
      = a * 10 ^ (digitsAux fuel n).length + n := by
  induction fuel with
  | zero => intro n a h; omega
  | succ fuel ih =>
    intro n a h
    by_cases h10 : n < 10
    · rw [digitsAux, if_pos h10]
      simp [digitVal_digitChar n h10]
    · rw [digitsAux, if_neg h10]
      rw [List.foldl_append, ih (n / 10) a (by omega)]
      rw [List.length_append]
      simp only [List.foldl_cons, List.foldl_nil, List.length_singleton]
      rw [digitVal_digitChar _ (by omega : n % 10 < 10)]
      have hdm : 10 * (n / 10) + n % 10 = n := by omega
      calc (a * 10 ^ (digitsAux fuel (n / 10)).length + n / 10) * 10 + n % 10
          = a * (10 ^ (digitsAux fuel (n / 10)).length * 10) +
            (10 * (n / 10) + n % 10) := by ring
        _ = a * 10 ^ ((digitsAux fuel (n / 10)).length + 1) + n := by
            rw [hdm, pow_succ]

theorem digitsAux_len (fuel : Nat) : ∀ n k, n < fuel → 10 ^ k ≤ n →
    k + 1 ≤ (digitsAux fuel n).length := by
  induction fuel with
  | zero => intro n k h; omega
  | succ fuel ih =>
    intro n k h hk
    by_cases h10 : n < 10
    · rw [digitsAux, if_pos h10]
      have hk0 : k = 0 := by
        by_contra hne
        have h1 : (10 : Nat) ^ 1 ≤ 10 ^ k := Nat.pow_le_pow_right (by omega) (by omega)
        simp at h1
        omega
      subst hk0
      simp
    · rw [digitsAux, if_neg h10]
      rw [List.length_append, List.length_singleton]
      rcases k with _ | j
      · omega
      · have hp : (10 : Nat) ^ (j + 1) = 10 ^ j * 10 := pow_succ 10 j
        have h1 : 10 ^ j ≤ n / 10 := by omega
        have := ih (n / 10) j (by omega) h1
        omega

theorem decimalDigits_digits (n : Nat) : ∀ c ∈ decimalDigits n, isDigitCh c = true :=
  digitsAux_digits (n + 1) n (by omega)

theorem digitsToNat_decimalDigits (n : Nat) : digitsToNat (decimalDigits n) = n := by
  unfold digitsToNat decimalDigits
  rw [digitsAux_val (n + 1) n 0 (by omega)]
  simp

theorem decimalDigits_len4 (n : Nat) (h : 1000 ≤ n) :
    4 ≤ (decimalDigits n).length := by
  have := digitsAux_len (n + 1) n 3 (by omega) (by simpa using h)
  simpa using this

theorem takeWhile_app (p : Char → Bool) (l1 l2 : List Char) (x : Char)
    (h1 : ∀ c ∈ l1, p c = true) (h2 : p x = false) :
    (l1 ++ x :: l2).takeWhile p = l1 ∧ (l1 ++ x :: l2).dropWhile p = x :: l2 := by
  induction l1 with
  | nil => simp [List.takeWhile_cons, List.dropWhile_cons, h2]
  | cons c cs ih =>
    have hc : p c = true := h1 c (by simp)
    have ihh := ih fun c2 hc2 => h1 c2 (by simp [hc2])
    simp [List.takeWhile_cons, List.dropWhile_cons, hc, ihh.1, ihh.2]

/-! ### Round-trip of the HTTP-date codec -/

theorem parseWeekday_ok (w : Nat) (rest : List Char) :
    parseWeekday (weekdayName w ++ ',' :: ' ' :: rest) = some rest := by
  unfold weekdayName
  split <;> rfl

theorem expectCh_cons (c : Char) (rest : List Char) :
    expectCh c (c :: rest) = some rest := by
  simp [expectCh]

theorem parse2_pad2 (n : Nat) (h : n < 100) (rest : List Char) :
    parse2 (pad2 n ++ rest) = some (n, rest) := by
  have h1 : n / 10 < 10 := by omega
  have h2 : n % 10 < 10 := by omega
  simp only [pad2, List.cons_append, List.nil_append, parse2,
    isDigitCh_digitChar _ h1, isDigitCh_digitChar _ h2, Bool.and_self,
    if_true, digitVal_digitChar _ h1, digitVal_digitChar _ h2]
  have h3 : 10 * (n / 10) + n % 10 = n := by omega
  rw [h3]

theorem parseMonth_name (m : Nat) (h1 : 1 ≤ m) (h2 : m ≤ 12) (rest : List Char) :
    parseMonth (monthName m ++ rest) = some (m, rest) := by
  interval_cases m <;> rfl

theorem parseYear_spec (y : Nat) (h : 1000 ≤ y) (rest : List Char) :
    parseYear (decimalDigits y ++ ' ' :: rest) = some (y, ' ' :: rest) := by
  obtain ⟨ht, hd⟩ := takeWhile_app isDigitCh (decimalDigits y) rest ' '
    (decimalDigits_digits y) (by decide)
  unfold parseYear
  rw [ht, hd, if_neg (by have := decimalDigits_len4 y h; omega),
    digitsToNat_decimalDigits]

theorem parseTime_spec (hh mi ss : Nat) (h1 : hh < 24) (h2 : mi < 60)
    (h3 : ss < 60) (rest : List Char) :
    parseTime (pad2 hh ++ ':' :: (pad2 mi ++ ':' :: (pad2 ss ++ rest)))
      = some (hh * 3600 + mi * 60 + ss, rest) := by
  have b1 : Nat.ble hh 23 = true := by simp [Nat.ble_eq]; omega
  have b2 : Nat.ble mi 59 = true := by simp [Nat.ble_eq]; omega
  have b3 : Nat.ble ss 59 = true := by simp [Nat.ble_eq]; omega
  simp only [parseTime, parse2_pad2 hh (by omega), expectCh_cons,
    parse2_pad2 mi (by omega), parse2_pad2 ss (by omega), b1, b2, b3,
    Bool.and_self, if_true]

theorem civil_y_ge (z : Nat) : 1000 ≤ (civil_from_days z).1 := by
  have h4 : 4 ≤ (z + 719468) / 146097 := by omega
  simp only [civil_from_days]
  have : 0 ≤ (civilOfDoe ((z + 719468) % 146097)).1 := Nat.zero_le _
  omega

theorem parseDate_gen (d m y : Nat) (hd1 : 1 ≤ d) (hd2 : d ≤ 31)
    (hm1 : 1 ≤ m) (hm2 : m ≤ 12) (hy : 1000 ≤ y) (rest : List Char) :
    parseDate (pad2 d ++ ' ' :: (monthName m ++ ' ' ::
      (decimalDigits y ++ ' ' :: rest)))
      = some (days_from_civil y m d, ' ' :: rest) := by
  have b1 : Nat.ble 1 d = true := by simp [Nat.ble_eq]; omega
  have b2 : Nat.ble d 31 = true := by simp [Nat.ble_eq]; omega
  simp only [parseDate, parse2_pad2 d (by omega), expectCh_cons,
    parseMonth_name m hm1 hm2, parseYear_spec y hy, b1, b2,
    Bool.and_self, if_true]

theorem parseDate_spec (z : Nat) (rest : List Char) :
    parseDate (pad2 (civil_from_days z).2.2 ++ ' ' ::
      (monthName (civil_from_days z).2.1 ++ ' ' ::
        (decimalDigits (civil_from_days z).1 ++ ' ' :: rest)))
      = some (z, ' ' :: rest) := by
  obtain ⟨hd1, hd2⟩ := civil_d_bounds z
  obtain ⟨hm1, hm2⟩ := civil_m_bounds z
  have hy := civil_y_ge z
  rw [parseDate_gen _ _ _ hd1 hd2 hm1 hm2 hy, days_civil_inv]

theorem parseList_gen (w d m y hh mi ss : Nat) (hd1 : 1 ≤ d) (hd2 : d ≤ 31)
    (hm1 : 1 ≤ m) (hm2 : m ≤ 12) (hy : 1000 ≤ y) (h1 : hh < 24)
    (h2 : mi < 60) (h3 : ss < 60) :
    parseList (weekdayName w ++ ',' :: ' ' :: (pad2 d ++ ' ' ::
      (monthName m ++ ' ' :: (decimalDigits y ++ ' ' ::
        (pad2 hh ++ ':' :: (pad2 mi ++ ':' ::
          (pad2 ss ++ [' ', 'G', 'M', 'T'])))))))
      = some (days_from_civil y m d * 86400 + (hh * 3600 + mi * 60 + ss)) := by
  simp only [parseList, parseWeekday_ok,
    parseDate_gen d m y hd1 hd2 hm1 hm2 hy, expectCh_cons,
    parseTime_spec hh mi ss h1 h2 h3, if_true]

theorem parseList_fmt (secs : Nat) : parseList (fmtList secs) = some secs := by
  obtain ⟨hd1, hd2⟩ := civil_d_bounds (secs / 86400)
  obtain ⟨hm1, hm2⟩ := civil_m_bounds (secs / 86400)
  have hy := civil_y_ge (secs / 86400)
  have ht1 : secs % 86400 / 3600 < 24 := by omega
  have ht2 : secs % 86400 % 3600 / 60 < 60 := by omega
  have ht3 : secs % 60 < 60 := by omega
  unfold fmtList
  rw [parseList_gen _ _ _ _ _ _ _ hd1 hd2 hm1 hm2 hy ht1 ht2 ht3,
    days_civil_inv]
  have heq : secs / 86400 * 86400 +
      (secs % 86400 / 3600 * 3600 + secs % 86400 % 3600 / 60 * 60 + secs % 60)
      = secs := by omega
  rw [heq]

theorem parse_fmt (t : SystemTime) :
    parse_http_date (fmt_http_date t) = .ok ⟨t.secs, 0⟩ := by
  unfold parse_http_date fmt_http_date
  have hdata : (String.mk (fmtList t.secs)).data = fmtList t.secs := rfl
  rw [hdata, parseList_fmt]

/-! ### Collection and error facts -/

theorem Headers.get_insert_self (h : Headers) (nm : String)
    (vs : List HeaderValue) : (h.insert nm vs).get nm = some vs := by
  simp [Headers.get, Headers.insert, List.find?]

theorem parse_error_status (s : String) (e : Error)
    (h : parse_http_date s = .error e) : e = ⟨400⟩ := by
  unfold parse_http_date at h
  rcases hp : parseList s.data with _ | n <;> rw [hp] at h <;> simp_all

theorem getLast?_ne_none {α : Type} (l : List α) (h : l ≠ []) :
    l.getLast? ≠ none := by
  induction l with
  | nil => exact absurd rfl h
  | cons a as ih =>
    cases as with
    | nil => simp
    | cons b bs =>
      rw [List.getLast?_cons_cons]
      exact ih (by simp)

theorem weekdayName_ascii (w : Nat) : ∀ c ∈ weekdayName w, c.toNat < 128 := by
  unfold weekdayName
  split <;> decide

theorem monthName_ascii (m : Nat) : ∀ c ∈ monthName m, c.toNat < 128 := by
  unfold monthName
  split <;> decide

theorem pad2_ascii (n : Nat) : ∀ c ∈ pad2 n, c.toNat < 128 := by
  intro c hc
  simp only [pad2, List.mem_cons, List.not_mem_nil, or_false] at hc
  rcases hc with h | h <;> subst h <;> exact digitChar_ascii _

theorem decimalDigits_ascii (n : Nat) : ∀ c ∈ decimalDigits n, c.toNat < 128 :=
  fun c hc => isDigitCh_ascii c (decimalDigits_digits n c hc)

theorem fmtList_ascii (secs : Nat) : ∀ c ∈ fmtList secs, c.toNat < 128 := by
  intro c hc
  simp only [fmtList, List.mem_append, List.mem_cons,
    List.not_mem_nil, or_false] at hc
  casesm* _ ∨ _
  all_goals
    first
      | (subst_vars; decide)
      | exact weekdayName_ascii _ _ (by assumption)
      | exact monthName_ascii _ _ (by assumption)
      | exact pad2_ascii _ _ (by assumption)
      | exact decimalDigits_ascii _ _ (by assumption)

theorem fmt_ascii (t : SystemTime) : asciiOnly (fmt_http_date t) = true := by
  unfold asciiOnly fmt_http_date
  refine List.all_eq_true.mpr ?_
  intro c hc
  have := fmtList_ascii t.secs c hc
  simp only [Nat.blt_eq]
  omega

/-! ### The claims -/

/-- C1: for every timestamp T (well-formed, nanos below one second),
constructing `IfUnmodifiedSince::new(T)`, applying it to a fresh header
collection and reading it back with `from_headers` yields `Ok(Some(V))`
where `V.modified()` is T truncated to whole seconds, hence differs from T
by less than one second. -/
theorem c1_roundtrip (T : SystemTime) (h : T.nanos < 1000000000) :
    IfUnmodifiedSince.from_headers ((IfUnmodifiedSince.new T).apply Headers.empty)
      = some (Except.ok (some (IfUnmodifiedSince.new ⟨T.secs, 0⟩))) ∧
    (IfUnmodifiedSince.new ⟨T.secs, 0⟩).modified.toNanos ≤ T.toNanos ∧
    T.toNanos - (IfUnmodifiedSince.new ⟨T.secs, 0⟩).modified.toNanos
      < 1000000000 := by
  refine ⟨?_, ?_, ?_⟩
  · unfold IfUnmodifiedSince.from_headers IfUnmodifiedSince.apply
    rw [Headers.get_insert_self]
    have hv : (IfUnmodifiedSince.new T).value.as_str = fmt_http_date T := rfl
    simp only [List.getLast?_singleton, hv, parse_fmt, Except.map]
    rfl
  · simp only [IfUnmodifiedSince.modified, IfUnmodifiedSince.new,
      SystemTime.toNanos]
    omega
  · simp only [IfUnmodifiedSince.modified, IfUnmodifiedSince.new,
      SystemTime.toNanos]
    omega

/-- C1 witness: the round trip at the concrete timestamp 1234567890 s and
half a second of nanoseconds. -/
theorem c1_roundtrip_witness :
    (⟨1234567890, 500000000⟩ : SystemTime).nanos < 1000000000 ∧
    (IfUnmodifiedSince.from_headers
        ((IfUnmodifiedSince.new ⟨1234567890, 500000000⟩).apply Headers.empty)
      = some (Except.ok (some (IfUnmodifiedSince.new ⟨1234567890, 0⟩))) ∧
    (IfUnmodifiedSince.new (⟨1234567890, 0⟩ : SystemTime)).modified.toNanos ≤
      (⟨1234567890, 500000000⟩ : SystemTime).toNanos ∧
    (⟨1234567890, 500000000⟩ : SystemTime).toNanos -
      (IfUnmodifiedSince.new (⟨1234567890, 0⟩ : SystemTime)).modified.toNanos
      < 1000000000) :=
  ⟨by decide, c1_roundtrip ⟨1234567890, 500000000⟩ (by decide)⟩

/-- C2: whenever the header is present and its last stored text does not
conform to the HTTP-date grammar (the parse fails), `from_headers` returns
an error whose status accessor reports 400, a client-error-class status. -/
theorem c2_malformed (h : Headers) (vs : List HeaderValue) (v : HeaderValue)
    (h1 : h.get IF_UNMODIFIED_SINCE = some vs) (h2 : vs.getLast? = some v)
    (h3 : ∃ e0, parse_http_date v.as_str = .error e0) :
    ∃ e, IfUnmodifiedSince.from_headers h = some (.error e) ∧
      e.status = 400 ∧ isClientErrorStatus e.status := by
  obtain ⟨e0, he⟩ := h3
  have he4 := parse_error_status _ _ he
  subst he4
  refine ⟨⟨400⟩, ?_, rfl, by simp [isClientErrorStatus]⟩
  unfold IfUnmodifiedSince.from_headers
  rw [h1]
  simp only [h2, he, Except.map]

/-- C2 witness: the literal malformed text from the repository's test. -/
theorem c2_malformed_witness :
    ∃ e, IfUnmodifiedSince.from_headers
        (Headers.empty.insert IF_UNMODIFIED_SINCE
          [HeaderValue.from_bytes_unchecked "<nori ate the tag. yum.>"])
      = some (.error e) ∧ e.status = 400 ∧ isClientErrorStatus e.status :=
  c2_malformed _ [HeaderValue.from_bytes_unchecked "<nori ate the tag. yum.>"]
    (HeaderValue.from_bytes_unchecked "<nori ate the tag. yum.>")
    rfl rfl ⟨⟨400⟩, rfl⟩

/-- C3: when the header name is absent, `from_headers` returns `Ok(None)`,
never an error — distinct from the present-but-invalid outcome. -/
theorem c3_missing (h : Headers)
    (habs : h.get IF_UNMODIFIED_SINCE = none) :
    IfUnmodifiedSince.from_headers h = some (.ok none) := by
  unfold IfUnmodifiedSince.from_headers
  rw [habs]

/-- C3 witness: the empty header collection. -/
theorem c3_missing_witness :
    IfUnmodifiedSince.from_headers Headers.empty = some (.ok none) :=
  c3_missing Headers.empty rfl

/-- C4: when the header name is stored with values, `from_headers` parses
exactly the last value in insertion order: the entire result is determined
by that last value, so earlier values are ignored even if malformed. -/
theorem c4_last (h : Headers) (vs : List HeaderValue) (v : HeaderValue)
    (h1 : h.get IF_UNMODIFIED_SINCE = some vs) (h2 : vs.getLast? = some v) :
    IfUnmodifiedSince.from_headers h =
      some ((parse_http_date v.as_str).map
        fun instant => some (IfUnmodifiedSince.new instant)) := by
  unfold IfUnmodifiedSince.from_headers
  rw [h1]
  simp only [h2]
  rfl

/-- C4 witness: two stored values, the earlier one malformed; the result is
that of parsing the last value alone. -/
theorem c4_last_witness :
    IfUnmodifiedSince.from_headers
        (Headers.empty.insert IF_UNMODIFIED_SINCE
          [HeaderValue.from_bytes_unchecked "pizza",
           HeaderValue.from_bytes_unchecked "Thu, 01 Jan 1970 00:00:05 GMT"])
      = some ((parse_http_date
          (HeaderValue.from_bytes_unchecked
            "Thu, 01 Jan 1970 00:00:05 GMT").as_str).map
        fun instant => some (IfUnmodifiedSince.new instant)) :=
  c4_last _
    [HeaderValue.from_bytes_unchecked "pizza",
     HeaderValue.from_bytes_unchecked "Thu, 01 Jan 1970 00:00:05 GMT"]
    (HeaderValue.from_bytes_unchecked "Thu, 01 Jan 1970 00:00:05 GMT")
    rfl rfl

/-- C5: applying two instances in sequence leaves exactly one stored value
under the header name, the formatted text of the second timestamp —
`insert` replaces all prior values. -/
theorem c5_overwrite (h : Headers) (T1 T2 : SystemTime) :
    ((IfUnmodifiedSince.new T2).apply
        ((IfUnmodifiedSince.new T1).apply h)).get IF_UNMODIFIED_SINCE
      = some [(IfUnmodifiedSince.new T2).value] := by
  unfold IfUnmodifiedSince.apply
  rw [Headers.get_insert_self]

/-- C6: `new` is pure construction with no validation, and `modified`
returns the stored timestamp unchanged. -/
theorem c6_new_modified (T : SystemTime) :
    (IfUnmodifiedSince.new T).modified = T := rfl

/-- C7: equality and ordering on `IfUnmodifiedSince` are structural on the
stored instant and total: `new T1 < new T2` iff `T1 < T2`, equality iff the
instants are equal, and any two values are comparable. -/
theorem c7_order (T1 T2 : SystemTime) :
    (IfUnmodifiedSince.new T1 < IfUnmodifiedSince.new T2 ↔ T1 < T2) ∧
    (IfUnmodifiedSince.new T1 = IfUnmodifiedSince.new T2 ↔ T1 = T2) ∧
    (IfUnmodifiedSince.new T1 < IfUnmodifiedSince.new T2 ∨
      IfUnmodifiedSince.new T1 = IfUnmodifiedSince.new T2 ∨
      IfUnmodifiedSince.new T2 < IfUnmodifiedSince.new T1) := by
  refine ⟨Iff.rfl, ?_, ?_⟩
  · constructor
    · intro he
      exact congrArg IfUnmodifiedSince.instant he
    · intro he
      rw [he]
  · rcases T1 with ⟨s1, n1⟩
    rcases T2 with ⟨s2, n2⟩
    rcases Nat.lt_trichotomy s1 s2 with hh | hh | hh
    · exact Or.inl (Or.inl hh)
    · subst hh
      rcases Nat.lt_trichotomy n1 n2 with hn | hn | hn
      · exact Or.inl (Or.inr ⟨rfl, hn⟩)
      · subst hn
        exact Or.inr (Or.inl rfl)
      · exact Or.inr (Or.inr (Or.inr ⟨rfl, hn⟩))
    · exact Or.inr (Or.inr (Or.inl hh))

/-- C8: `value()` is the unchecked wrapping of the HTTP-date formatting of
the stored timestamp, and that formatted text is always ASCII, so the
unchecked construction is safe; `value()` is total. -/
theorem c8_value (T : SystemTime) :
    (IfUnmodifiedSince.new T).value
      = HeaderValue.from_bytes_unchecked (fmt_http_date T) ∧
    asciiOnly (fmt_http_date T) = true :=
  ⟨rfl, fmt_ascii T⟩

/-- C9: the `ToHeaderValues` conversion always succeeds and yields exactly
one value, the instance's `value()`. -/
theorem c9_to_header_values (v : IfUnmodifiedSince) :
    v.to_header_values = Except.ok [v.value] := rfl

/-- C10: under the collection contract that a present name maps to a
non-empty value sequence, `from_headers` never panics: the internal
last-entry unwrap succeeds and the result is `Ok` or `Err` on every such
collection. -/
theorem c10_total (h : Headers)
    (hwf : ∀ vs, h.get IF_UNMODIFIED_SINCE = some vs → vs ≠ []) :
    (IfUnmodifiedSince.from_headers h).isSome = true := by
  unfold IfUnmodifiedSince.from_headers
  cases hg : h.get IF_UNMODIFIED_SINCE with
  | none => rfl
  | some vs =>
    cases hl : vs.getLast? with
    | none => exact absurd hl (getLast?_ne_none vs (hwf vs hg))
    | some v =>
      simp [hl]

/-- C10 witness: a collection holding one stored value for the name. -/
theorem c10_total_witness :
    (IfUnmodifiedSince.from_headers
        (Headers.empty.insert IF_UNMODIFIED_SINCE
          [HeaderValue.from_bytes_unchecked "pizza"])).isSome = true :=
  c10_total _ (fun vs hv => by
    rw [show (Headers.empty.insert IF_UNMODIFIED_SINCE
        [HeaderValue.from_bytes_unchecked "pizza"]).get IF_UNMODIFIED_SINCE
        = some [HeaderValue.from_bytes_unchecked "pizza"] from rfl] at hv
    injection hv with hv2
    rw [← hv2]
    simp)
